import Mathlib

/-!
Verification of the run-visualizer geospatial/animation pipeline.

The development shallowly embeds the JavaScript source of the repository:
JS `number` arithmetic is modelled by real arithmetic (`ℝ`), array-of-object
lists by Lean lists, and nullable values by `Option`.  Each definition is a
direct transcription of the corresponding source function; comments record
the source file and any modelling convention used.
-/

namespace RunViz

/-- A THREE.Vector3-style triple of coordinates. -/
structure Vec3 where
  x : ℝ
  y : ℝ
  z : ℝ

/-- The dataset centroid, `{lat, lon}` as computed by `calculateCenter`. -/
structure Center where
  lat : ℝ
  lon : ℝ

namespace config

/-- config.js: `projectionScale: 10000`. -/
noncomputable def projectionScale : ℝ := 10000

/-- config.js: `elevationScale: 0.1`. -/
noncomputable def elevationScale : ℝ := 0.1

/-- config.js: `maxPointsPerTrack: 1000`. -/
def maxPointsPerTrack : ℕ := 1000

/-- config.js: `animationDuration: 60` (seconds). -/
noncomputable def animationDuration : ℝ := 60

/-- config.js: `animationLoop: true`. -/
def animationLoop : Bool := true

/-- config.js: `cameraAnimation.transitionSeconds: 1.5`. -/
noncomputable def transitionSeconds : ℝ := 1.5

end config

/-- utils.js `gpsToCartesian(lat, lon, ele, center)`: planar projection of a
GPS sample into the local scene frame. -/
noncomputable def gpsToCartesian (lat lon ele : ℝ) (center : Center) : Vec3 :=
  let latScale := config.projectionScale
  let lonScale := config.projectionScale * Real.cos (center.lat * Real.pi / 180)
  { x := (lon - center.lon) * lonScale
    y := ele * config.elevationScale
    z := -(lat - center.lat) * latScale }

/-- utils.js `easeInOutCubic(t)`. -/
noncomputable def easeInOutCubic (t : ℝ) : ℝ :=
  if t < 0.5 then 4 * t * t * t else 1 - (-2 * t + 2) ^ 3 / 2

/-- THREE.Vector3.lerpVectors: `v1 + (v2 - v1) * alpha`, componentwise. -/
noncomputable def lerpVectors (v1 v2 : Vec3) (alpha : ℝ) : Vec3 :=
  { x := v1.x + (v2.x - v1.x) * alpha
    y := v1.y + (v2.y - v1.y) * alpha
    z := v1.z + (v2.z - v1.z) * alpha }

/-- The camera controller's mode, the string state of useCameraAnimation.js. -/
inductive AnimState where
  | AUTO
  | TRANSITIONING
  | USER_CONTROL
deriving DecidableEq

/-- The record stored in `transitionDataRef.current` when a transition starts. -/
structure TransitionData where
  startPosition : Vec3
  startTarget : Vec3
  targetPosition : Vec3
  targetLookAt : Vec3

/-- The mutable state owned by useCameraAnimation.js: React state plus refs and
the camera/orbit vectors it writes.  Times are in milliseconds (`Date.now()`). -/
structure CameraState where
  animationState : AnimState
  transitionStart : ℝ
  transitionData : Option TransitionData
  lastInteraction : ℝ
  cameraPosition : Vec3
  orbitTarget : Vec3

/-- useCameraAnimation.js `useFrame` callback (lines 163-193): while
TRANSITIONING with recorded transition data, ease the camera along the
recorded endpoints; on progress ≥ 1 snap back to AUTO and clear the data. -/
noncomputable def cameraFrame (now : ℝ) (s : CameraState) : CameraState :=
  match s.transitionData with
  | none => s
  | some td =>
    if s.animationState ≠ AnimState.TRANSITIONING then s
    else
      let elapsed := (now - s.transitionStart) / 1000
      let progress := min (elapsed / config.transitionSeconds) 1
      let easedProgress := easeInOutCubic progress
      let pos := lerpVectors td.startPosition td.targetPosition easedProgress
      let tgt := lerpVectors td.startTarget td.targetLookAt easedProgress
      if 1 ≤ progress then
        { s with cameraPosition := pos, orbitTarget := tgt,
                 animationState := AnimState.AUTO, transitionData := none }
      else
        { s with cameraPosition := pos, orbitTarget := tgt }

/-- useCameraAnimation.js `handleInteraction` (lines 41-54): a change event is
ignored while TRANSITIONING; otherwise it records the interaction time and,
from AUTO, yields to USER_CONTROL. -/
def handleInteraction (now : ℝ) (s : CameraState) : CameraState :=
  if s.animationState = AnimState.TRANSITIONING then s
  else
    let s1 := { s with lastInteraction := now }
    if s1.animationState = AnimState.AUTO then
      { s1 with animationState := AnimState.USER_CONTROL }
    else s1

/-- useCameraAnimation.js `selectRandomTrack` do-while loop body sequence:
`draws` is the stream of values `Math.floor(Math.random() * tracks.length)`
produced by successive iterations; the loop keeps drawing while the draw
equals the current featured index and more than one track exists. -/
def selectLoop (current : Option ℕ) (len : ℕ) : List ℕ → Option ℕ
  | [] => none
  | c :: rest =>
    if some c = current ∧ 1 < len then selectLoop current len rest else some c

/-- useCameraAnimation.js `selectRandomTrack` (lines 93-102): `none` models the
early `return null` for an empty track list; `current` is
`featuredTrackIndexRef.current` (null models as `none`, and a JS strict
comparison of a number with null is false). -/
def selectRandomTrack (current : Option ℕ) (len : ℕ) (draws : List ℕ) : Option ℕ :=
  if len = 0 then none else selectLoop current len draws

lemma easeInOutCubic_one : easeInOutCubic 1 = 1 := by
  unfold easeInOutCubic
  norm_num

lemma lerpVectors_one (v1 v2 : Vec3) : lerpVectors v1 v2 1 = v2 := by
  unfold lerpVectors
  cases v2
  simp only [Vec3.mk.injEq]
  refine ⟨by ring, by ring, by ring⟩

/-- C1: if a frame update runs while the camera state is TRANSITIONING and the
elapsed time since the transition started is at least `transitionSeconds`,
then the computed progress is 1, `easeInOutCubic 1 = 1`, the camera position
is set exactly to the recorded end position and the orbit target exactly to
the recorded end target, the stored transition data is cleared, and the state
becomes AUTO. -/
theorem C1_transition_completion (now : ℝ) (s : CameraState) (td : TransitionData)
    (hstate : s.animationState = AnimState.TRANSITIONING)
    (hdata : s.transitionData = some td)
    (helapsed : config.transitionSeconds ≤ (now - s.transitionStart) / 1000) :
    min ((now - s.transitionStart) / 1000 / config.transitionSeconds) 1 = 1 ∧
    easeInOutCubic 1 = 1 ∧
    (cameraFrame now s).cameraPosition = td.targetPosition ∧
    (cameraFrame now s).orbitTarget = td.targetLookAt ∧
    (cameraFrame now s).transitionData = none ∧
    (cameraFrame now s).animationState = AnimState.AUTO := by
  have hts : (0 : ℝ) < config.transitionSeconds := by
    unfold config.transitionSeconds
    norm_num
  have hprog : min ((now - s.transitionStart) / 1000 / config.transitionSeconds) 1 = 1 := by
    have h1 : (1 : ℝ) ≤ (now - s.transitionStart) / 1000 / config.transitionSeconds :=
      (one_le_div hts).mpr helapsed
    exact min_eq_right h1
  have hframe : cameraFrame now s =
      { s with
        cameraPosition := lerpVectors td.startPosition td.targetPosition
          (easeInOutCubic (min ((now - s.transitionStart) / 1000 / config.transitionSeconds) 1)),
        orbitTarget := lerpVectors td.startTarget td.targetLookAt
          (easeInOutCubic (min ((now - s.transitionStart) / 1000 / config.transitionSeconds) 1)),
        animationState := AnimState.AUTO, transitionData := none } := by
    unfold cameraFrame
    rw [hdata]
    simp only [hstate, ne_eq, not_true_eq_false, if_false, ite_not]
    rw [hprog]
    simp
  refine ⟨hprog, easeInOutCubic_one, ?_, ?_, ?_, ?_⟩
  · rw [hframe]
    simp only [hprog, easeInOutCubic_one, lerpVectors_one]
  · rw [hframe]
    simp only [hprog, easeInOutCubic_one, lerpVectors_one]
  · rw [hframe]
  · rw [hframe]

/-- Concrete transition endpoints used to witness C1. -/
noncomputable def demoTd : TransitionData :=
  { startPosition := ⟨0, 0, 0⟩, startTarget := ⟨0, 0, 0⟩
    targetPosition := ⟨1, 2, 3⟩, targetLookAt := ⟨4, 5, 6⟩ }

/-- Concrete mid-transition camera state used to witness C1. -/
noncomputable def demoCam : CameraState :=
  { animationState := AnimState.TRANSITIONING, transitionStart := 0
    transitionData := some demoTd, lastInteraction := 0
    cameraPosition := ⟨0, 0, 0⟩, orbitTarget := ⟨0, 0, 0⟩ }

/-- Witness for C1 at a concrete state, 2000 ms after the transition start. -/
theorem C1_transition_completion_witness :
    demoCam.animationState = AnimState.TRANSITIONING ∧
    demoCam.transitionData = some demoTd ∧
    config.transitionSeconds ≤ (2000 - demoCam.transitionStart) / 1000 ∧
    (cameraFrame 2000 demoCam).cameraPosition = demoTd.targetPosition ∧
    (cameraFrame 2000 demoCam).animationState = AnimState.AUTO := by
  have h3 : config.transitionSeconds ≤ (2000 - demoCam.transitionStart) / 1000 := by
    unfold config.transitionSeconds demoCam
    norm_num
  have h := C1_transition_completion 2000 demoCam demoTd rfl rfl h3
  exact ⟨rfl, rfl, h3, h.2.2.1, h.2.2.2.2.2⟩

/-- C5: an interaction-change event delivered while the controller state is
TRANSITIONING leaves the whole state unchanged — no new last-interaction time
is recorded and the state does not move to USER_CONTROL. -/
theorem C5_self_interaction_immunity (now : ℝ) (s : CameraState)
    (hstate : s.animationState = AnimState.TRANSITIONING) :
    handleInteraction now s = s ∧
    (handleInteraction now s).animationState = AnimState.TRANSITIONING ∧
    (handleInteraction now s).lastInteraction = s.lastInteraction := by
  have h : handleInteraction now s = s := by
    unfold handleInteraction
    rw [hstate]
    simp
  exact ⟨h, by rw [h, hstate], by rw [h]⟩

/-- Witness for C5 at a concrete mid-transition state. -/
theorem C5_self_interaction_immunity_witness :
    demoCam.animationState = AnimState.TRANSITIONING ∧
    handleInteraction 12345 demoCam = demoCam :=
  ⟨rfl, (C5_self_interaction_immunity 12345 demoCam rfl).1⟩

/-- C4: a featured-track selection never returns the currently featured index
when more than one track exists, and with exactly one track it returns that
track's index (0), provided the random draws are in range. -/
theorem C4_no_repeat (current : Option ℕ) (len : ℕ) (draws : List ℕ) :
    (∀ r : ℕ, 1 < len → selectRandomTrack current len draws = some r → some r ≠ current) ∧
    (len = 1 → draws ≠ [] → (∀ c ∈ draws, c < len) →
      selectRandomTrack current len draws = some 0) := by
  constructor
  · intro r hlen hsel
    have hlen0 : len ≠ 0 := by omega
    unfold selectRandomTrack at hsel
    rw [if_neg hlen0] at hsel
    induction draws with
    | nil => simp [selectLoop] at hsel
    | cons c rest ih =>
      unfold selectLoop at hsel
      by_cases hg : some c = current ∧ 1 < len
      · rw [if_pos hg] at hsel
        exact ih hsel
      · rw [if_neg hg] at hsel
        have hrc : r = c := by
          injection hsel with h
          omega
        subst hrc
        intro hcur
        exact hg ⟨hcur, hlen⟩
  · intro hlen hne hrange
    subst hlen
    match draws, hne with
    | c :: rest, _ =>
      have hc : c < 1 := hrange c (by simp)
      have hc0 : c = 0 := by omega
      subst hc0
      unfold selectRandomTrack selectLoop
      simp

/-- Witness for C4: with two tracks and draws [0, 1] from featured index 0 the
selection returns 1 ≠ 0, and with a single track it returns index 0. -/
theorem C4_no_repeat_witness :
    (some 1 ≠ (some 0 : Option ℕ)) ∧ selectRandomTrack (some 0) 1 [0] = some 0 :=
  ⟨(C4_no_repeat (some 0) 2 [0, 1]).1 1 (by decide) (by decide),
   (C4_no_repeat (some 0) 1 [0]).2 rfl (by decide) (by decide)⟩

/-- C2: the projection returns
`x = (lon − centroid.lon) · projectionScale · cos(centroid.lat in radians)`,
`z = −(lat − centroid.lat) · projectionScale`, `y = elevation · elevationScale`,
with no error condition, and maps the centroid itself at elevation 0 to the
origin. -/
theorem C2_projection (lat lon ele : ℝ) (center : Center) :
    gpsToCartesian lat lon ele center =
      { x := (lon - center.lon) * config.projectionScale *
              Real.cos (center.lat * Real.pi / 180)
        y := ele * config.elevationScale
        z := -(lat - center.lat) * config.projectionScale } ∧
    gpsToCartesian center.lat center.lon 0 center = ⟨0, 0, 0⟩ := by
  constructor
  · unfold gpsToCartesian
    ring_nf
  · unfold gpsToCartesian
    ring_nf

/-! Downsampling (utils.js `downsampleTrack`, lines 578-595).

The JS loop selects `points[Math.floor(i * step)]` for `i = 0 .. maxPoints-1`
with `step = points.length / maxPoints`; under exact arithmetic
`Math.floor(i * step)` is the natural-number division `i * len / maxPoints`.
The final identity test `downsampled[downsampled.length-1] !== points[len-1]`
compares object identities; the parser allocates one distinct object per
point, so it holds exactly when the last selected index differs from
`len - 1`.  The index list of the selection is factored out as
`downsampleIndices` so the subsequence structure can be stated. -/

/-- The original-array indices emitted by `downsampleTrack` for an input of
length `len`: all of them if `len ≤ maxPoints`, otherwise the strided indices
`i * len / maxPoints` followed by `len - 1` when the stride missed it. -/
def downsampleIndices (len maxPoints : ℕ) : List ℕ :=
  if len ≤ maxPoints then List.range len
  else
    let idxs := (List.range maxPoints).map (fun i => i * len / maxPoints)
    if idxs.getLast? = some (len - 1) then idxs else idxs ++ [len - 1]

/-- utils.js `downsampleTrack(points, maxPoints)`. -/
def downsampleTrack {α : Type _} (points : List α) (maxPoints : ℕ) : List α :=
  if points.length ≤ maxPoints then points
  else
    let len := points.length
    let idxs := (List.range maxPoints).map (fun i => i * len / maxPoints)
    let downsampled := idxs.filterMap (fun i => points[i]?)
    if idxs.getLast? = some (len - 1) then downsampled
    else downsampled ++ (points[len - 1]?).toList

lemma filterMap_getElem?_range {α : Type _} (l : List α) :
    (List.range l.length).filterMap (fun i => l[i]?) = l := by
  induction l with
  | nil => rfl
  | cons a l ih =>
    have h0 : (a :: l)[0]? = some a := List.getElem?_cons_zero
    rw [List.length_cons, List.range_succ_eq_map, List.filterMap_cons_some h0,
      List.filterMap_map]
    simp only [Function.comp_def, List.getElem?_cons_succ]
    rw [ih]

lemma filterMap_getElem?_singleton {α : Type _} (l : List α) (j : ℕ) :
    List.filterMap (fun i => l[i]?) [j] = (l[j]?).toList := by
  cases h : l[j]? with
  | none => rw [List.filterMap_cons_none h]; rfl
  | some a => rw [List.filterMap_cons_some h]; rfl

lemma length_filterMap_getElem? {α : Type _} (l : List α) (is : List ℕ)
    (h : ∀ j ∈ is, j < l.length) :
    (is.filterMap (fun j => l[j]?)).length = is.length := by
  induction is with
  | nil => rfl
  | cons j tl ih =>
    rw [List.filterMap_cons_some (List.getElem?_eq_getElem (h j (List.mem_cons_self j tl))),
      List.length_cons, List.length_cons,
      ih (fun i hi => h i (List.mem_cons_of_mem j hi))]

lemma getElem?_filterMap_getElem? {α : Type _} (l : List α) (is : List ℕ)
    (h : ∀ j ∈ is, j < l.length) (i : ℕ) :
    (is.filterMap (fun j => l[j]?))[i]? = is[i]?.bind (fun j => l[j]?) := by
  induction is generalizing i with
  | nil => simp
  | cons j tl ih =>
    rw [List.filterMap_cons_some (List.getElem?_eq_getElem (h j (List.mem_cons_self j tl)))]
    cases i with
    | zero =>
      simp only [List.getElem?_cons_zero, Option.bind_some]
      exact (List.getElem?_eq_getElem (h j (List.mem_cons_self j tl))).symm
    | succ i =>
      simp only [List.getElem?_cons_succ]
      exact ih (fun k hk => h k (List.mem_cons_of_mem j hk)) i

lemma pairwise_lt_map_sub_one {is : List ℕ} (h : is.Pairwise (· < ·))
    (h1 : ∀ i ∈ is, 1 ≤ i) : (is.map (· - 1)).Pairwise (· < ·) := by
  induction is with
  | nil => simp
  | cons i tl ih =>
    rw [List.map_cons]
    rcases List.pairwise_cons.mp h with ⟨hlt, hp⟩
    refine List.pairwise_cons.mpr
      ⟨?_, ih hp (fun j hj => h1 j (List.mem_cons_of_mem i hj))⟩
    intro b hb
    obtain ⟨j, hj, rfl⟩ := List.mem_map.mp hb
    have h2 := hlt j hj
    have h3 := h1 i (List.mem_cons_self i tl)
    omega

lemma filterMap_getElem?_shift {α : Type _} (a : α) (l : List α) (is : List ℕ)
    (h1 : ∀ j ∈ is, 1 ≤ j) :
    is.filterMap (fun j => (a :: l)[j]?) =
      (is.map (· - 1)).filterMap (fun j => l[j]?) := by
  induction is with
  | nil => rfl
  | cons j tl ih =>
    obtain ⟨j', rfl⟩ : ∃ j', j = j' + 1 := by
      have := h1 j (List.mem_cons_self j tl)
      exact ⟨j - 1, by omega⟩
    rw [List.map_cons, List.filterMap_cons, List.filterMap_cons]
    simp only [List.getElem?_cons_succ, Nat.add_sub_cancel]
    rw [ih (fun i hi => h1 i (List.mem_cons_of_mem _ hi))]

lemma sublist_filterMap_getElem? {α : Type _} :
    ∀ (l : List α) (is : List ℕ), is.Pairwise (· < ·) →
      (is.filterMap fun i => l[i]?).Sublist l := by
  intro l
  induction l with
  | nil =>
    intro is _
    have h : (is.filterMap fun i => ([] : List α)[i]?) = [] :=
      List.filterMap_eq_nil_iff.mpr (by simp)
    rw [h]
  | cons a l ih =>
    intro is h
    cases is with
    | nil => exact List.nil_sublist _
    | cons i tl =>
      rcases List.pairwise_cons.mp h with ⟨hlt, hp⟩
      by_cases hi : i = 0
      · subst hi
        rw [List.filterMap_cons_some (List.getElem?_cons_zero)]
        have h1 : ∀ j ∈ tl, 1 ≤ j := fun j hj => by have := hlt j hj; omega
        rw [filterMap_getElem?_shift a l tl h1]
        exact (ih _ (pairwise_lt_map_sub_one hp h1)).cons₂ a
      · have h1 : ∀ j ∈ i :: tl, 1 ≤ j := by
          intro j hj
          rcases List.mem_cons.mp hj with rfl | hj
          · omega
          · have := hlt j hj; omega
        rw [filterMap_getElem?_shift a l _ h1]
        refine List.Sublist.cons a ?_
        refine ih _ (pairwise_lt_map_sub_one ?_ h1)
        exact h

lemma stride_mono {len maxPoints i j : ℕ} (hij : i ≤ j) :
    i * len / maxPoints ≤ j * len / maxPoints :=
  Nat.div_le_div_right (Nat.mul_le_mul_right len hij)

lemma stride_strict_mono {len maxPoints i j : ℕ} (hmp : 0 < maxPoints)
    (hlen : maxPoints ≤ len) (hij : i < j) :
    i * len / maxPoints < j * len / maxPoints := by
  have hstep : i * len / maxPoints + 1 ≤ (i + 1) * len / maxPoints := by
    rw [Nat.le_div_iff_mul_le hmp, Nat.add_mul, Nat.one_mul]
    have h1 : i * len / maxPoints * maxPoints ≤ i * len := Nat.div_mul_le_self _ _
    have h2 : maxPoints ≤ len := hlen
    calc i * len / maxPoints * maxPoints + maxPoints
        ≤ i * len + maxPoints := Nat.add_le_add_right h1 _
      _ ≤ i * len + len := Nat.add_le_add_left h2 _
      _ = (i + 1) * len := by ring
  calc i * len / maxPoints < i * len / maxPoints + 1 := Nat.lt_succ_self _
    _ ≤ (i + 1) * len / maxPoints := hstep
    _ ≤ j * len / maxPoints := stride_mono hij

lemma stride_lt_len {len maxPoints i : ℕ} (hmp : 0 < maxPoints)
    (hlen : maxPoints < len) (hi : i < maxPoints) :
    i * len / maxPoints < len := by
  rw [Nat.div_lt_iff_lt_mul hmp, Nat.mul_comm len maxPoints]
  have hlen0 : 0 < len := by omega
  exact (Nat.mul_lt_mul_right hlen0).mpr hi

lemma downsampleTrack_eq_filterMap {α : Type _} (points : List α) (maxPoints : ℕ) :
    downsampleTrack points maxPoints =
      (downsampleIndices points.length maxPoints).filterMap (fun i => points[i]?) := by
  unfold downsampleTrack downsampleIndices
  by_cases hle : points.length ≤ maxPoints
  · rw [if_pos hle, if_pos hle, filterMap_getElem?_range]
  · rw [if_neg hle, if_neg hle]
    by_cases hlast :
        ((List.range maxPoints).map (fun i => i * points.length / maxPoints)).getLast?
          = some (points.length - 1)
    · rw [if_pos hlast, if_pos hlast]
    · rw [if_neg hlast, if_neg hlast, List.filterMap_append,
        filterMap_getElem?_singleton]

lemma downsampleIndices_getLast?_stride (len m : ℕ) :
    ((List.range (m + 1)).map (fun i => i * len / (m + 1))).getLast?
      = some (m * len / (m + 1)) := by
  rw [List.range_succ, List.map_append, List.map_cons, List.map_nil,
    List.getLast?_concat]

lemma downsampleIndices_pairwise (len maxPoints : ℕ) (hmp : 1 ≤ maxPoints) :
    (downsampleIndices len maxPoints).Pairwise (· < ·) ∧
    ∀ i ∈ downsampleIndices len maxPoints, i < len := by
  unfold downsampleIndices
  by_cases hle : len ≤ maxPoints
  · rw [if_pos hle]
    exact ⟨List.pairwise_lt_range len, fun i hi => List.mem_range.mp hi⟩
  · rw [if_neg hle]
    have hlen : maxPoints < len := by omega
    have hmp0 : 0 < maxPoints := hmp
    have hpair :
        ((List.range maxPoints).map (fun i => i * len / maxPoints)).Pairwise (· < ·) := by
      rw [List.pairwise_map]
      exact (List.pairwise_lt_range maxPoints).imp_of_mem
        (fun _ _ hij => stride_strict_mono hmp0 (Nat.le_of_lt hlen) hij)
    have hmem :
        ∀ x ∈ (List.range maxPoints).map (fun i => i * len / maxPoints), x < len := by
      intro x hx
      obtain ⟨i, hi, rfl⟩ := List.mem_map.mp hx
      exact stride_lt_len hmp0 hlen (List.mem_range.mp hi)
    by_cases hlast :
        ((List.range maxPoints).map (fun i => i * len / maxPoints)).getLast?
          = some (len - 1)
    · rw [if_pos hlast]
      exact ⟨hpair, hmem⟩
    · rw [if_neg hlast]
      obtain ⟨m, rfl⟩ : ∃ m, maxPoints = m + 1 := ⟨maxPoints - 1, by omega⟩
      have hlastv := downsampleIndices_getLast?_stride len m
      have hne : m * len / (m + 1) ≠ len - 1 := by
        intro hcontra
        exact hlast (hlastv.trans (by rw [hcontra]))
      have hmlt : m * len / (m + 1) < len - 1 := by
        have := stride_lt_len hmp0 hlen (Nat.lt_succ_self m)
        omega
      constructor
      · rw [List.pairwise_append]
        refine ⟨hpair, List.pairwise_singleton _ _, ?_⟩
        intro a ha b hb
        rw [List.mem_singleton] at hb
        subst hb
        obtain ⟨i, hi, rfl⟩ := List.mem_map.mp ha
        have hile : i ≤ m := by
          have := List.mem_range.mp hi
          omega
        calc i * len / (m + 1) ≤ m * len / (m + 1) := stride_mono hile
          _ < len - 1 := hmlt
      · intro x hx
        rcases List.mem_append.mp hx with hx | hx
        · exact hmem x hx
        · rw [List.mem_singleton] at hx
          omega

/-- C3: for every point list and `maxPoints ≥ 1`, `downsampleTrack` returns at
most `maxPoints + 1` points, always contains the last original point, selects
`points[i * len / maxPoints]` as its i-th element when the input is longer
than `maxPoints`, and returns the input unchanged otherwise. -/
theorem C3_downsample {α : Type _} (points : List α) (maxPoints : ℕ)
    (hmp : 1 ≤ maxPoints) :
    (downsampleTrack points maxPoints).length ≤ maxPoints + 1 ∧
    (∀ h : points ≠ [], points.getLast h ∈ downsampleTrack points maxPoints) ∧
    (maxPoints < points.length → ∀ i < maxPoints,
      (downsampleTrack points maxPoints)[i]? =
        points[i * points.length / maxPoints]?) ∧
    (points.length ≤ maxPoints → downsampleTrack points maxPoints = points) := by
  have heq := downsampleTrack_eq_filterMap points maxPoints
  have hpw := downsampleIndices_pairwise points.length maxPoints hmp
  refine ⟨?_, ?_, ?_, ?_⟩
  · rw [heq]
    refine le_trans (List.length_filterMap_le _ _) ?_
    unfold downsampleIndices
    by_cases hle : points.length ≤ maxPoints
    · rw [if_pos hle, List.length_range]
      omega
    · rw [if_neg hle]
      by_cases hlast :
          ((List.range maxPoints).map (fun i => i * points.length / maxPoints)).getLast?
            = some (points.length - 1)
      · rw [if_pos hlast, List.length_map, List.length_range]
        omega
      · rw [if_neg hlast, List.length_append, List.length_map, List.length_range]
        simp
  · intro hne
    rw [heq]
    have hlen0 : 0 < points.length := List.length_pos.mpr hne
    have hmem : points.length - 1 ∈ downsampleIndices points.length maxPoints := by
      unfold downsampleIndices
      by_cases hle : points.length ≤ maxPoints
      · rw [if_pos hle]
        exact List.mem_range.mpr (by omega)
      · rw [if_neg hle]
        by_cases hlast :
            ((List.range maxPoints).map (fun i => i * points.length / maxPoints)).getLast?
              = some (points.length - 1)
        · rw [if_pos hlast]
          exact List.mem_of_mem_getLast? hlast
        · rw [if_neg hlast]
          exact List.mem_append_right _ (List.mem_singleton.mpr rfl)
    refine List.mem_filterMap.mpr ⟨points.length - 1, hmem, ?_⟩
    rw [List.getElem?_eq_getElem (by omega)]
    congr 1
    rw [List.getLast_eq_getElem]
  · intro hlen i hi
    rw [heq, getElem?_filterMap_getElem? _ _ hpw.2 i]
    have hidx : (downsampleIndices points.length maxPoints)[i]? =
        some (i * points.length / maxPoints) := by
      unfold downsampleIndices
      rw [if_neg (by omega)]
      have hmap :
          ((List.range maxPoints).map (fun j => j * points.length / maxPoints))[i]? =
            some (i * points.length / maxPoints) := by
        rw [List.getElem?_map, List.getElem?_range hi]
        rfl
      by_cases hlast :
          ((List.range maxPoints).map (fun j => j * points.length / maxPoints)).getLast?
            = some (points.length - 1)
      · rw [if_pos hlast]
        exact hmap
      · rw [if_neg hlast]
        rw [List.getElem?_append_left (by rw [List.length_map, List.length_range]; exact hi)]
        exact hmap
    rw [hidx]
    rfl
  · intro hle
    unfold downsampleTrack
    rw [if_pos hle]

/-- Witness for C3 at `points = [10, 20, 30]`, `maxPoints = 2`: output length
is within bound, the last point 30 survives, position 1 holds
`points[1 * 3 / 2] = 20`, and a short list `[7]` passes through unchanged. -/
theorem C3_downsample_witness :
    (downsampleTrack [10, 20, 30] 2).length ≤ 2 + 1 ∧
    (30 : ℕ) ∈ downsampleTrack [10, 20, 30] 2 ∧
    (downsampleTrack [10, 20, 30] 2)[1]? = some 20 ∧
    downsampleTrack [7] 2 = [7] := by
  have h := C3_downsample [10, 20, 30] 2 (by decide)
  have h2 := C3_downsample [7] 2 (by decide)
  refine ⟨h.1, ?_, ?_, h2.2.2.2 (by decide)⟩
  · have := h.2.1 (by decide)
    simpa using this
  · have := h.2.2.1 (by decide) 1 (by decide)
    simpa using this

/-- C10: the output of `downsampleTrack` is a subsequence of the input taken
at strictly increasing original indices — the emitted index list is strictly
increasing, stays in range, generates the output, and the output is a
sublist (order-preserving subsequence without duplicated positions) of the
input. -/
theorem C10_subsequence {α : Type _} (points : List α) (maxPoints : ℕ)
    (hmp : 1 ≤ maxPoints) :
    (downsampleIndices points.length maxPoints).Pairwise (· < ·) ∧
    (∀ i ∈ downsampleIndices points.length maxPoints, i < points.length) ∧
    downsampleTrack points maxPoints =
      (downsampleIndices points.length maxPoints).filterMap (fun i => points[i]?) ∧
    (downsampleTrack points maxPoints).Sublist points := by
  have hpw := downsampleIndices_pairwise points.length maxPoints hmp
  have heq := downsampleTrack_eq_filterMap points maxPoints
  refine ⟨hpw.1, hpw.2, heq, ?_⟩
  rw [heq]
  exact sublist_filterMap_getElem? points _ hpw.1

/-- Witness for C10: the downsample of `[10, 20, 30]` with `maxPoints = 2` is
a sublist of the input. -/
theorem C10_subsequence_witness :
    (downsampleTrack [10, 20, 30] 2).Sublist [10, 20, 30] :=
  (C10_subsequence [10, 20, 30] 2 (by decide)).2.2.2

/-! Animation driver (TokyoRunVisualizer.jsx `RunnerOrbs`, lines 23-83). -/

/-- JS remainder `a % b` as used by the animation clock: the dividend
(elapsed time) is nonnegative and the divisor positive, where JS truncating
remainder and the floor-based remainder agree. -/
noncomputable def jsMod (a b : ℝ) : ℝ := a - b * ⌊a / b⌋

/-- RunnerOrbs `useFrame` progress computation (lines 24-27):
`animationLoop ? (elapsed % duration) / duration : min(elapsed / duration, 1)`. -/
noncomputable def animProgress (animationLoop : Bool) (animationDuration elapsed : ℝ) : ℝ :=
  match animationLoop with
  | true => jsMod elapsed animationDuration / animationDuration
  | false => min (elapsed / animationDuration) 1

/-- C6: per-frame progress is `(elapsed mod duration)/duration` when looping
and `min(elapsed/duration, 1)` otherwise; with looping, progress is periodic
with period `duration` and non-decreasing within one loop cycle
(`k·D ≤ t₁ ≤ t₂ < (k+1)·D`). -/
theorem C6_progress_wrap (D t t1 t2 : ℝ) (k : ℤ) (hD : 0 < D) (ht : 0 ≤ t)
    (hk1 : (k : ℝ) * D ≤ t1) (h12 : t1 ≤ t2) (hk2 : t2 < ((k : ℝ) + 1) * D) :
    animProgress true D t = jsMod t D / D ∧
    animProgress false D t = min (t / D) 1 ∧
    animProgress true D (t + D) = animProgress true D t ∧
    animProgress true D t1 ≤ animProgress true D t2 := by
  have hDne : D ≠ 0 := ne_of_gt hD
  refine ⟨rfl, rfl, ?_, ?_⟩
  · show jsMod (t + D) D / D = jsMod t D / D
    have hdiv : (t + D) / D = t / D + 1 := by
      field_simp
    unfold jsMod
    rw [hdiv, Int.floor_add_one]
    push_cast
    ring_nf
  · have hfloor1 : ⌊t1 / D⌋ = k := by
      rw [Int.floor_eq_iff]
      constructor
      · rw [le_div_iff₀ hD]
        exact hk1
      · rw [div_lt_iff₀ hD]
        exact lt_of_le_of_lt h12 hk2
    have hfloor2 : ⌊t2 / D⌋ = k := by
      rw [Int.floor_eq_iff]
      constructor
      · rw [le_div_iff₀ hD]
        exact le_trans hk1 h12
      · rw [div_lt_iff₀ hD]
        exact hk2
    show jsMod t1 D / D ≤ jsMod t2 D / D
    unfold jsMod
    rw [hfloor1, hfloor2, div_le_div_iff_of_pos_right hD]
    exact sub_le_sub_right h12 _

/-- Witness for C6 at `D = 2`, `t = 1`, `k = 0`, `t₁ = 1`, `t₂ = 3/2`. -/
theorem C6_progress_wrap_witness :
    animProgress true 2 (1 + 2) = animProgress true 2 1 ∧
    animProgress true 2 1 ≤ animProgress true 2 (3 / 2) := by
  have h := C6_progress_wrap 2 1 1 (3 / 2) 0 (by norm_num) (by norm_num)
    (by norm_num) (by norm_num) (by norm_num)
  exact ⟨h.2.2.1, h.2.2.2⟩

/-- A processed track as consumed by the per-frame loop: the curve handle is
the abstract sampling function of THREE.CatmullRomCurve3 (`curve.getPoint`);
`none` models a null/failed curve, skipped by the loop. -/
structure OrbTrack where
  curve : Option (ℝ → Vec3)

/-- utils.js `getPointOnCurve(curve, progress)`: clamp progress to [0, 1]
and sample the curve. -/
noncomputable def getPointOnCurve (curve : ℝ → Vec3) (progress : ℝ) : Vec3 :=
  curve (max 0 (min 1 progress))

/-- RunnerOrbs `useFrame` body (TokyoRunVisualizer.jsx lines 23-83): the
clock is read once (`now` enters the computation in one place), a single
progress is computed, each track with a curve is sampled at that progress,
and the writes are partitioned into the non-featured and the featured
instance buffers by comparing the track index with `featuredTrackIndex`. -/
noncomputable def runnerFrameWrites (tracks : List OrbTrack)
    (featuredTrackIndex : Option ℕ) (now startTime : ℝ) : List Vec3 × List Vec3 :=
  let elapsed := (now - startTime) / 1000
  let progress := animProgress config.animationLoop config.animationDuration elapsed
  let entries := tracks.enum.filterMap
    (fun it => (it.2.curve).map (fun c => (it.1, getPointOnCurve c progress)))
  ((entries.filter (fun e => !(some e.1 == featuredTrackIndex))).map Prod.snd,
   (entries.filter (fun e => some e.1 == featuredTrackIndex)).map Prod.snd)

lemma snd_mem_of_mem_enumFrom {α : Type _} :
    ∀ (l : List α) (n : ℕ) (x : ℕ × α), x ∈ l.enumFrom n → x.2 ∈ l := by
  intro l
  induction l with
  | nil =>
    intro n x hx
    simp [List.enumFrom] at hx
  | cons a l ih =>
    intro n x hx
    rw [List.enumFrom] at hx
    rcases List.mem_cons.mp hx with rfl | hx
    · exact List.mem_cons_self a l
    · exact List.mem_cons_of_mem a (ih (n + 1) x hx)

/-- C7: within one frame every written position — in either instance
buffer — is the sample of that track's curve at the one shared progress value
computed from the single clock read of the frame. -/
theorem C7_synchrony (tracks : List OrbTrack) (fi : Option ℕ) (now startTime : ℝ)
    (v : Vec3)
    (hv : v ∈ (runnerFrameWrites tracks fi now startTime).1 ++
              (runnerFrameWrites tracks fi now startTime).2) :
    ∃ t ∈ tracks, ∃ c, t.curve = some c ∧
      v = getPointOnCurve c (animProgress config.animationLoop
            config.animationDuration ((now - startTime) / 1000)) := by
  simp only [runnerFrameWrites] at hv
  rcases List.mem_append.mp hv with h | h <;>
  · obtain ⟨e, hef, rfl⟩ := List.mem_map.mp h
    have he := (List.mem_filter.mp hef).1
    obtain ⟨it, hit, heq⟩ := List.mem_filterMap.mp he
    obtain ⟨c, hc, hce⟩ := Option.map_eq_some'.mp heq
    refine ⟨it.2, snd_mem_of_mem_enumFrom tracks 0 it hit, c, hc, ?_⟩
    rw [← hce]

/-- Concrete curve used to witness C7. -/
noncomputable def demoCurve : ℝ → Vec3 := fun _ => ⟨1, 2, 3⟩

/-- One-track list used to witness C7. -/
noncomputable def demoOrbTracks : List OrbTrack := [{ curve := some demoCurve }]

/-- Witness for C7: the single write of a one-track frame is a sample of that
track's curve at the frame's progress value. -/
theorem C7_synchrony_witness :
    ∃ t ∈ demoOrbTracks, ∃ c, t.curve = some c ∧
      getPointOnCurve demoCurve (animProgress config.animationLoop
          config.animationDuration ((0 - 0) / 1000)) =
        getPointOnCurve c (animProgress config.animationLoop
          config.animationDuration ((0 - 0) / 1000)) := by
  refine C7_synchrony demoOrbTracks none 0 0 _ ?_
  simp [runnerFrameWrites, demoOrbTracks, List.enum, List.enumFrom]

/-! Track processing (utils.js `parseGPX`, `calculateCenter`, `processTracks`,
lines 525-701). -/

/-- A parsed GPX track point (utils.js `parseGPX`): `{lat, lon, ele}`. -/
structure RawPoint where
  lat : ℝ
  lon : ℝ
  ele : ℝ

/-- Track-level metadata attached by `parseGPX`: the `<time>` text and the
`<trk>` element index. -/
structure TrackMeta where
  timestamp : Option String
  index : ℕ

/-- One element of the `parseGPX` result: `{points, metadata}`. -/
structure RawTrack where
  points : List RawPoint
  metadata : TrackMeta

/-- utils.js `calculateCenter(tracks)`: arithmetic mean of every point's
lat/lon over all tracks (the nested `forEach` accumulation). -/
noncomputable def calculateCenter (tracks : List RawTrack) : Center :=
  let totalLat := (tracks.map (fun t => (t.points.map RawPoint.lat).sum)).sum
  let totalLon := (tracks.map (fun t => (t.points.map RawPoint.lon).sum)).sum
  let totalPoints := (tracks.map (fun t => t.points.length)).sum
  { lat := totalLat / (totalPoints : ℝ), lon := totalLon / (totalPoints : ℝ) }

/-- The record pushed by `processTracks`; the curve handle has abstract type
`C` because THREE.CatmullRomCurve3 is an external collaborator. -/
structure ProcessedTrack (C : Type _) where
  id : ℕ
  points : List Vec3
  curve : C
  originalPointCount : ℕ
  processedPointCount : ℕ
  timestamp : Option String
  sequenceIndex : ℕ
  startLat : ℝ
  startLon : ℝ
  endLat : ℝ
  endLon : ℝ

/-- The body of the `tracks.forEach` in utils.js `processTracks` for entry
`index`: downsample, project, require at least 2 points, build the curve and
assemble the record.  `mkCurve` models the try/catch around
`new THREE.CatmullRomCurve3(points3D, false, 'catmullrom', 0.5)`, with `none`
a construction failure; a `none` result models the early `return` that drops
the track.  The metadata start/end reads `track[0]`/`track[track.length-1]`
are guarded by the length check, so the list-with-default accessors only ever
see a nonempty list. -/
noncomputable def buildTrack {C : Type _} (mkCurve : List Vec3 → Option C)
    (center : Center) (index : ℕ) (trackData : RawTrack) :
    Option (ProcessedTrack C) :=
  let track := trackData.points
  let downsampledTrack := downsampleTrack track config.maxPointsPerTrack
  let points3D := downsampledTrack.map (fun p => gpsToCartesian p.lat p.lon p.ele center)
  if points3D.length < 2 then none
  else
    match mkCurve points3D with
    | none => none
    | some curve =>
      some { id := index, points := points3D, curve := curve,
             originalPointCount := track.length,
             processedPointCount := points3D.length,
             timestamp := trackData.metadata.timestamp,
             sequenceIndex := trackData.metadata.index,
             startLat := (track.headD ⟨0, 0, 0⟩).lat,
             startLon := (track.headD ⟨0, 0, 0⟩).lon,
             endLat := (track.getLastD ⟨0, 0, 0⟩).lat,
             endLon := (track.getLastD ⟨0, 0, 0⟩).lon }

/-- utils.js `processTracks(tracks)` (lines 651-701): empty input returns
`[]` before the centroid is computed; otherwise the centroid is computed once
and each track is processed with its `forEach` index. -/
noncomputable def processTracks {C : Type _} (mkCurve : List Vec3 → Option C)
    (tracks : List RawTrack) : List (ProcessedTrack C) :=
  if tracks.length = 0 then []
  else
    let center := calculateCenter tracks
    tracks.enum.filterMap (fun it => buildTrack mkCurve center it.1 it.2)

lemma buildTrack_nil_points {C : Type _} (mkCurve : List Vec3 → Option C)
    (center : Center) (i : ℕ) (t : RawTrack) (h : t.points = []) :
    buildTrack mkCurve center i t = none := by
  unfold buildTrack
  rw [h]
  simp [downsampleTrack]

lemma buildTrack_id {C : Type _} (mkCurve : List Vec3 → Option C)
    (center : Center) (i : ℕ) (t : RawTrack) (p : ProcessedTrack C)
    (h : buildTrack mkCurve center i t = some p) : p.id = i := by
  simp only [buildTrack] at h
  split at h
  · exact absurd h (by simp)
  · split at h
    · exact absurd h (by simp)
    · injection h with h
      rw [← h]

lemma filterMap_sublist_map {α β : Type _} (f : α → Option β) (g : α → β) :
    ∀ (l : List α), (∀ x ∈ l, ∀ b, f x = some b → b = g x) →
      (l.filterMap f).Sublist (l.map g) := by
  intro l
  induction l with
  | nil =>
    intro _
    simp
  | cons a l ih =>
    intro h
    rw [List.map_cons]
    cases hfa : f a with
    | none =>
      rw [List.filterMap_cons_none hfa]
      exact (ih (fun x hx => h x (List.mem_cons_of_mem a hx))).cons (g a)
    | some b =>
      have hb : b = g a := h a (List.mem_cons_self a l) b hfa
      subst hb
      rw [List.filterMap_cons_some hfa]
      exact (ih (fun x hx => h x (List.mem_cons_of_mem a hx))).cons₂ (g a)

/-- C8 claims processing zero total points fails with an EmptyDatasetError
instead of returning a normal result; the source has no such error path — its
`processTracks` is total and returns the plain empty list for the empty
input, the centroid computation being skipped by the early return. -/
theorem C8_counterexample :
    processTracks (fun pts => some pts) ([] : List RawTrack) = [] := rfl

/-- C8 (amended): with zero total points across all raw tracks,
`processTracks` returns the ordinary empty list — the centroid is skipped for
the empty input and every pointless track is dropped — rather than raising
any error. -/
theorem C8_empty_dataset {C : Type _} (mkCurve : List Vec3 → Option C)
    (tracks : List RawTrack) (h : ∀ t ∈ tracks, t.points = []) :
    processTracks mkCurve tracks = [] := by
  unfold processTracks
  by_cases h0 : tracks.length = 0
  · rw [if_pos h0]
  · rw [if_neg h0]
    refine List.filterMap_eq_nil_iff.mpr ?_
    intro it hit
    exact buildTrack_nil_points mkCurve (calculateCenter tracks) it.1 it.2
      (h it.2 (snd_mem_of_mem_enumFrom tracks 0 it hit))

/-- A one-track dataset with zero total points, witnessing C8. -/
noncomputable def demoEmptyTracks : List RawTrack :=
  [{ points := [], metadata := { timestamp := none, index := 0 } }]

/-- Witness for the amended C8 on a nonempty track list with zero points. -/
theorem C8_empty_dataset_witness :
    (∀ t ∈ demoEmptyTracks, t.points = []) ∧
    processTracks (fun pts => some pts) demoEmptyTracks = [] :=
  ⟨by simp [demoEmptyTracks],
   C8_empty_dataset (fun pts => some pts) demoEmptyTracks (by simp [demoEmptyTracks])⟩

/-- C9: every processed track's `id` is its index in the original input — the
output's id sequence is a subsequence of `0, …, n-1` in order (so drops never
renumber the survivors), and the entry at `id` of the original input is
exactly the raw track this processed track was built from. -/
theorem C9_id_stability {C : Type _} (mkCurve : List Vec3 → Option C)
    (tracks : List RawTrack) (p : ProcessedTrack C)
    (hp : p ∈ processTracks mkCurve tracks) :
    ((processTracks mkCurve tracks).map (fun q => q.id)).Sublist
      (List.range tracks.length) ∧
    ∃ t, tracks[p.id]? = some t ∧
      buildTrack mkCurve (calculateCenter tracks) p.id t = some p := by
  unfold processTracks at hp ⊢
  by_cases h0 : tracks.length = 0
  · rw [if_pos h0] at hp
    exact absurd hp (List.not_mem_nil p)
  · rw [if_neg h0] at hp ⊢
    constructor
    · rw [List.map_filterMap]
      have hsub := filterMap_sublist_map
        (fun it => (buildTrack mkCurve (calculateCenter tracks) it.1 it.2).map
          (fun q => q.id))
        Prod.fst tracks.enum ?_
      · rw [List.enum_map_fst] at hsub
        exact hsub
      · intro it hit b hb
        obtain ⟨q, hq, hqb⟩ := Option.map_eq_some'.mp hb
        rw [← hqb]
        exact buildTrack_id mkCurve (calculateCenter tracks) it.1 it.2 q hq
    · obtain ⟨it, hit, heq⟩ := List.mem_filterMap.mp hp
      have hid : p.id = it.1 :=
        buildTrack_id mkCurve (calculateCenter tracks) it.1 it.2 p heq
      have hget : tracks[it.1]? = some it.2 := List.mem_enum_iff_getElem?.mp hit
      refine ⟨it.2, ?_, ?_⟩
      · rw [hid]
        exact hget
      · rw [hid]
        exact heq

/-- Two-track dataset witnessing C9: the first track has one point and is
dropped, the second survives with id 1 (its original index). -/
noncomputable def demoRawTracks : List RawTrack :=
  [{ points := [⟨0, 0, 0⟩], metadata := { timestamp := none, index := 0 } },
   { points := [⟨1, 2, 0⟩, ⟨3, 4, 0⟩], metadata := { timestamp := none, index := 1 } }]

/-- Curve constructor used by the C9 witness: always succeeds, storing the
control points (THREE's constructor only stores its arguments). -/
noncomputable def demoMkCurve : List Vec3 → Option (List Vec3) := fun pts => some pts

/-- The single surviving processed track of the C9 witness dataset. -/
noncomputable def demoProcessed : ProcessedTrack (List Vec3) :=
  (processTracks demoMkCurve demoRawTracks).headD
    { id := 0, points := [], curve := [], originalPointCount := 0,
      processedPointCount := 0, timestamp := none, sequenceIndex := 0,
      startLat := 0, startLon := 0, endLat := 0, endLon := 0 }

/-- Witness for C9: the surviving track of the demo dataset carries its
original index as id and points back at the raw track it came from. -/
theorem C9_id_stability_witness :
    demoProcessed ∈ processTracks demoMkCurve demoRawTracks ∧
    ∃ t, demoRawTracks[demoProcessed.id]? = some t ∧
      buildTrack demoMkCurve (calculateCenter demoRawTracks) demoProcessed.id t
        = some demoProcessed := by
  have hlist : processTracks demoMkCurve demoRawTracks = [demoProcessed] := rfl
  have hmem : demoProcessed ∈ processTracks demoMkCurve demoRawTracks := by
    rw [hlist]
    exact List.mem_singleton_self demoProcessed
  exact ⟨hmem, (C9_id_stability demoMkCurve demoRawTracks demoProcessed hmem).2⟩

end RunViz

